import Mathlib

/-!
Shallow embedding of the C hash table implementation from `hash_table.h`
and `hash_table.c`, together with theorems settling the specification
claims about it.

Modelling conventions:
* A C string (a `char*` key) is a `List Nat` of its byte values up to but
  excluding the terminating NUL; the header declares stored keys as
  `unsigned char*`, so characters are read as unsigned byte values.
  `strcmp(a, b) == 0` is equality of these lists.
* `unsigned int` arithmetic wraps modulo `2 ^ 32` (`UINT_MOD`).
* A bucket chain (a NULL-terminated linked list of `HT_Node`) is a
  `List HT_Node`; the NULL pointer is the empty list.
* The `nodes` array of `HT_Ht` is a `List (List HT_Node)` of the bucket
  chains; a well-formed table built by `HT_create` has
  `nodes.length = capacity`.
* A C function whose execution can dereference a NULL pointer is modelled
  with `Option`, `none` marking the dereference on which the C program
  would crash.
* `int value` fields are modelled as `Int`; no claim involves their
  overflow.
-/

/-- Wrapping modulus of `unsigned int`. -/
def UINT_MOD : Nat := 4294967296

/-- The multiplier of the hashing function (`#define HASHPRIME 31`). -/
def HASHPRIME : Nat := 31

/-- One entry of a bucket chain (`struct HT_node`): the owned key string
and the stored value.  The `next` pointer of the C struct is the tail of
the enclosing `List HT_Node`. -/
structure HT_Node where
  key : List Nat
  value : Int
deriving DecidableEq, Repr

/-- The hash table (`struct HT_ht`): its capacity and the array of bucket
chain heads. -/
structure HT_Ht where
  capacity : Nat
  nodes : List (List HT_Node)
deriving DecidableEq, Repr

/-- The accumulation loop of `HT_hash`: starting from `hashval`, fold
`hashval = *key + HASHPRIME * hashval` over the remaining characters, the
assignment to the `unsigned int` local wrapping modulo `2 ^ 32`. -/
def hashLoop : List Nat → Nat → Nat
  | [], hashval => hashval
  | c :: key, hashval => hashLoop key ((c + HASHPRIME * hashval) % UINT_MOD)

/-- `HT_hash`: run the accumulation loop from 0 and reduce modulo `size`.
In C, `size = 0` makes `hashval % size` a division by zero (undefined
behaviour); Lean's `%` is total there, and every theorem about `HT_hash`
assumes a positive size. -/
def HT_hash (key : List Nat) (size : Nat) : Nat :=
  hashLoop key 0 % size

/-- `HT_create`: allocate a table of `size` buckets, all initialized to
NULL.  There is no rejection path of any kind in the C code: every `size`,
including 0, yields a live table. -/
def HT_create (size : Nat) : HT_Ht :=
  { capacity := size, nodes := List.replicate size [] }

/-- `_HT_check`: recursively scan a bucket chain for `key`; 0 (false) at
NULL, 1 (true) when `strcmp(node->key, key) == 0`. -/
def _HT_check : List HT_Node → List Nat → Bool
  | [], _ => false
  | node :: next, key => if node.key = key then true else _HT_check next key

/-- `HT_check`: scan the bucket selected by `HT_hash`. -/
def HT_check (h_table : HT_Ht) (key : List Nat) : Bool :=
  _HT_check (h_table.nodes.getD (HT_hash key h_table.capacity) []) key

/-- `_HT_find`: recursively scan a bucket chain and return the value of
the first entry whose key matches.  The C code dereferences `nodes->key`
without a NULL test, so reaching the end of the chain (key absent) is a
NULL dereference, modelled as `none`. -/
def _HT_find : List HT_Node → List Nat → Option Int
  | [], _ => none
  | nodes :: next, key =>
    if nodes.key = key then some nodes.value else _HT_find next key

/-- `HT_find`: run `_HT_find` on the bucket selected by `HT_hash`. -/
def HT_find (h_table : HT_Ht) (key : List Nat) : Option Int :=
  _HT_find (h_table.nodes.getD (HT_hash key h_table.capacity) []) key

/-- The `for` loop of `_lookup`: walk the chain via `np = np->next` and
return the first node `np` with `strcmp(s, np->key) == 0`, or NULL. -/
def lookupLoop : List HT_Node → List Nat → Option HT_Node
  | [], _ => none
  | np :: next, s => if s = np.key then some np else lookupLoop next s

/-- `_lookup`: iterate over the bucket selected by `HT_hash` and return
the first matching node. -/
def _lookup (h_table : HT_Ht) (s : List Nat) : Option HT_Node :=
  lookupLoop (h_table.nodes.getD (HT_hash s h_table.capacity) []) s

/-- `HT_add`: build a new node owning a copy of `key` (copies are
identical lists in the model) holding `value`, point its `next` at the
current bucket head, and store it as the new head of the bucket selected
by `HT_hash`. -/
def HT_add (h_table : HT_Ht) (key : List Nat) (value : Int) : HT_Ht :=
  let hash_val := HT_hash key h_table.capacity
  let new_node : HT_Node := { key := key, value := value }
  { h_table with
    nodes := h_table.nodes.set hash_val
      (new_node :: h_table.nodes.getD hash_val []) }

/-- Functional rendering of the in-place write `node->value = new_value`
performed by `HT_change` through the pointer `_lookup` returned: the
first node of the chain whose key matches (in the scan order of
`lookupLoop`, whose test is `strcmp(s, np->key)`) gets its value
replaced; the rest of the chain is untouched. -/
def changeFirst : List HT_Node → List Nat → Int → List HT_Node
  | [], _, _ => []
  | node :: next, key, new_value =>
    if key = node.key then { node with value := new_value } :: next
    else node :: changeFirst next key new_value

/-- `HT_change`: `_lookup` the node, then overwrite its value in place.
When `_lookup` returns NULL (key absent) the C code dereferences NULL
(`node->value = new_value`), modelled as `none`. -/
def HT_change (h_table : HT_Ht) (key : List Nat) (new_value : Int) :
    Option HT_Ht :=
  match _lookup h_table key with
  | none => none
  | some _ =>
    let hash_val := HT_hash key h_table.capacity
    some { h_table with
      nodes := h_table.nodes.set hash_val
        (changeFirst (h_table.nodes.getD hash_val []) key new_value) }

/-- `_HT_remove_node`, faithful to the C code including its head branch:
* at NULL, `(*node)->key` is a NULL dereference (`none`);
* when the head matches, the code does `free(*node); *node = NULL;`,
  i.e. the whole chain is replaced by NULL (`some []`), not by the
  removed node's successor;
* otherwise `(*node)->next->key` is read: a NULL dereference (`none`)
  when the chain has a single node, else on a match the predecessor is
  relinked to the successor; else recurse on `&((*node)->next)`. -/
def _HT_remove_node : List HT_Node → List Nat → Option (List HT_Node)
  | [], _ => none
  | node :: next, key =>
    if node.key = key then some []
    else
      match next with
      | [] => none
      | next_node :: rest =>
        if next_node.key = key then some (node :: rest)
        else Option.map (node :: ·) (_HT_remove_node (next_node :: rest) key)

/-- `HT_remove`: run `_HT_remove_node` on the address of the bucket head
selected by `HT_hash`; the bucket slot receives whatever the helper left
behind. -/
def HT_remove (h_table : HT_Ht) (key : List Nat) : Option HT_Ht :=
  let hash_val := HT_hash key h_table.capacity
  Option.map
    (fun bucket => { h_table with nodes := h_table.nodes.set hash_val bucket })
    (_HT_remove_node (h_table.nodes.getD hash_val []) key)

/-- The hash algorithm exactly as the spec words it: a Horner fold over
the key's bytes — accumulator starts at 0, each step sets
`accumulator = byte + 31 * accumulator` in wrapping unsigned fixed-width
arithmetic — reduced modulo the capacity. -/
def specHash (key : List Nat) (capacity : Nat) : Nat :=
  (key.foldl (fun acc b => (b + 31 * acc) % UINT_MOD) 0) % capacity

/-! Helper lemmas shared by the claim theorems. -/

theorem getD_set_self {α : Type} (l : List α) (i : Nat) (x d : α)
    (h : i < l.length) : (l.set i x).getD i d = x := by
  induction l generalizing i with
  | nil => simp at h
  | cons a l ih =>
    cases i with
    | zero => rfl
    | succ i =>
      simp only [List.set_cons_succ, List.getD_cons_succ]
      exact ih i (Nat.lt_of_succ_lt_succ h)

theorem getD_set_ne {α : Type} (l : List α) (i j : Nat) (x d : α)
    (h : j ≠ i) : (l.set i x).getD j d = l.getD j d := by
  induction l generalizing i j with
  | nil => simp
  | cons a l ih =>
    cases i with
    | zero =>
      cases j with
      | zero => exact absurd rfl h
      | succ j => simp
    | succ i =>
      cases j with
      | zero => simp
      | succ j =>
        simp only [List.set_cons_succ, List.getD_cons_succ]
        exact ih i j (fun e => h (by rw [e]))

theorem check_eq_lookupLoop_isSome (chain : List HT_Node) (key : List Nat) :
    _HT_check chain key = (lookupLoop chain key).isSome := by
  induction chain with
  | nil => rfl
  | cons n rest ih =>
    rcases eq_or_ne n.key key with h | h
    · simp [_HT_check, lookupLoop, h]
    · have h2 : key ≠ n.key := fun e => h e.symm
      simp [_HT_check, lookupLoop, h, h2, ih]

theorem lookupLoop_find (chain : List HT_Node) (key : List Nat)
    (n : HT_Node) (h : lookupLoop chain key = some n) :
    _HT_find chain key = some n.value := by
  induction chain with
  | nil => exact absurd h (by simp [lookupLoop])
  | cons m rest ih =>
    rcases eq_or_ne m.key key with hk | hk
    · have hmn : m = n := by
        simpa [lookupLoop, hk.symm] using h
      subst hmn
      simp [_HT_find, hk]
    · have h2 : key ≠ m.key := fun e => hk e.symm
      have h3 : lookupLoop rest key = some n := by
        simpa [lookupLoop, h2] using h
      simp [_HT_find, hk, ih h3]

theorem find_changeFirst (chain : List HT_Node) (key : List Nat) (v : Int)
    (h : _HT_check chain key = true) :
    _HT_find (changeFirst chain key v) key = some v := by
  induction chain with
  | nil => exact absurd h (by simp [_HT_check])
  | cons n rest ih =>
    rcases eq_or_ne n.key key with hk | hk
    · simp only [changeFirst, if_pos hk.symm, _HT_find]
      simp [hk]
    · have h2 : key ≠ n.key := fun e => hk e.symm
      have h3 : _HT_check rest key = true := by
        simpa [_HT_check, hk] using h
      simp [changeFirst, h2, _HT_find, hk, ih h3]

theorem hashLoop_eq_foldl (key : List Nat) (acc : Nat) :
    hashLoop key acc
      = key.foldl (fun a b => (b + 31 * a) % UINT_MOD) acc := by
  induction key generalizing acc with
  | nil => rfl
  | cons c rest ih => simp [hashLoop, List.foldl, HASHPRIME, ih]

theorem remove_node_isSome (chain : List HT_Node) (key : List Nat)
    (h : ∃ n ∈ chain, n.key = key) :
    (_HT_remove_node chain key).isSome = true := by
  induction chain with
  | nil => simp at h
  | cons n rest ih =>
    cases rest with
    | nil =>
      have hk : n.key = key := by
        rcases h with ⟨m, hm, hmk⟩
        rcases List.mem_cons.mp hm with rfl | hm2
        · exact hmk
        · simp at hm2
      simp [_HT_remove_node, hk]
    | cons next_node rest2 =>
      rcases eq_or_ne n.key key with hk | hk
      · simp [_HT_remove_node, hk]
      · have hrest : ∃ m ∈ next_node :: rest2, m.key = key := by
          rcases h with ⟨m, hm, hmk⟩
          rcases List.mem_cons.mp hm with rfl | hm2
          · exact absurd hmk hk
          · exact ⟨m, hm2, hmk⟩
        rcases eq_or_ne next_node.key key with hk2 | hk2
        · simp [_HT_remove_node, hk, hk2]
        · have h3 := ih hrest
          rcases Option.isSome_iff_exists.mp h3 with ⟨b, hb⟩
          simp [_HT_remove_node, hk, hk2, hb]

/-! Claim theorems. -/

/-- C1 (code exhibit): on a capacity-1 table holding the chain
`("b", 2) :: ("a", 1)`, removing `"b"` — a match at the chain head with a
non-NULL successor — leaves the bucket EMPTY: the head branch of
`_HT_remove_node` sets the head pointer to NULL instead of to the removed
entry's successor, so the table the claim predicts (bucket `[("a", 1)]`)
is not what the code produces. -/
theorem remove_head_match_drops_successors :
    HT_remove (HT_add (HT_add (HT_create 1) [97] 1) [98] 2) [98]
        = some ({ capacity := 1, nodes := [[]] } : HT_Ht) ∧
    some ({ capacity := 1, nodes := [[]] } : HT_Ht)
        ≠ some ({ capacity := 1, nodes := [[{ key := [97], value := 1 }]] } : HT_Ht) :=
  ⟨rfl, by decide⟩

/-- C2 (code exhibit): after `add("x", 1)` then `add("x", 2)` on a
capacity-1 table, `find "x"` is 2 as claimed; but one `remove "x"` empties
the whole bucket (the shadowed `("x", 1)` entry is discarded together with
the head), so `check "x"` is false and `find "x"` is a NULL dereference —
not `check = true` and `find = 1` as the claim states. -/
theorem shadowed_entry_lost_on_remove :
    HT_find (HT_add (HT_add (HT_create 1) [120] 1) [120] 2) [120] = some 2 ∧
    HT_remove (HT_add (HT_add (HT_create 1) [120] 1) [120] 2) [120]
        = some ({ capacity := 1, nodes := [[]] } : HT_Ht) ∧
    HT_check ({ capacity := 1, nodes := [[]] } : HT_Ht) [120] = false ∧
    HT_find ({ capacity := 1, nodes := [[]] } : HT_Ht) [120] = none :=
  ⟨rfl, rfl, rfl, rfl⟩

/-- C3 (code exhibit): `HT_create 0` is silently accepted — the code has
no rejection path, and returns a live table with capacity 0 and an empty
bucket array, on which `HT_hash` would then compute `hashval % 0`, a
division by zero in C.  The claim that construction fails at capacity 0
does not hold of the code. -/
theorem create_zero_capacity_accepted :
    HT_create 0 = { capacity := 0, nodes := [] } := rfl

/-- C4: for every well-formed table and every `(k, v)` with `k` not
already present, after `HT_add t k v` the key checks as present and
`HT_find` returns `v`. -/
theorem add_then_check_and_find (t : HT_Ht) (k : List Nat) (v : Int)
    (hlen : t.nodes.length = t.capacity) (hcap : 0 < t.capacity)
    (habs : HT_check t k = false) :
    HT_check (HT_add t k v) k = true ∧ HT_find (HT_add t k v) k = some v := by
  have hi : HT_hash k t.capacity < t.nodes.length := by
    rw [hlen]; exact Nat.mod_lt _ hcap
  constructor
  · show _HT_check ((t.nodes.set (HT_hash k t.capacity)
      ({ key := k, value := v } :: t.nodes.getD (HT_hash k t.capacity) [])).getD
      (HT_hash k t.capacity) []) k = true
    rw [getD_set_self _ _ _ _ hi]
    simp [_HT_check]
  · show _HT_find ((t.nodes.set (HT_hash k t.capacity)
      ({ key := k, value := v } :: t.nodes.getD (HT_hash k t.capacity) [])).getD
      (HT_hash k t.capacity) []) k = some v
    rw [getD_set_self _ _ _ _ hi]
    simp [_HT_find]

/-- C4 witness: the round trip at the concrete table `HT_create 3` with
key `"a"` and value 5. -/
theorem add_then_check_and_find_witness :
    ((HT_create 3).nodes.length = (HT_create 3).capacity ∧
      0 < (HT_create 3).capacity ∧ HT_check (HT_create 3) [97] = false) ∧
    (HT_check (HT_add (HT_create 3) [97] 5) [97] = true ∧
      HT_find (HT_add (HT_create 3) [97] 5) [97] = some 5) :=
  ⟨⟨rfl, by decide, rfl⟩, add_then_check_and_find (HT_create 3) [97] 5 rfl (by decide) rfl⟩

/-- C5: for every key and every capacity at least 1, `HT_hash` equals the
spec's Horner fold (`specHash`) — accumulator 0, each step
`byte + 31 * accumulator` wrapping modulo `2 ^ 32`, reduced modulo the
capacity — and the hash of the empty string is 0. -/
theorem hash_matches_spec_horner (key : List Nat) (c : Nat) (h : 1 ≤ c) :
    HT_hash key c = specHash key c ∧ HT_hash [] c = 0 := by
  refine ⟨?_, ?_⟩
  · unfold HT_hash specHash
    rw [hashLoop_eq_foldl]
  · show hashLoop [] 0 % c = 0
    simp [hashLoop]

/-- C5 witness: the agreement at a concrete key (with a byte above 127)
and capacity 7. -/
theorem hash_matches_spec_horner_witness :
    1 ≤ 7 ∧
    (HT_hash [104, 255, 105] 7 = specHash [104, 255, 105] 7 ∧ HT_hash [] 7 = 0) :=
  ⟨by decide, hash_matches_spec_horner [104, 255, 105] 7 (by decide)⟩

/-- C6: for every key and every positive capacity `c`, `HT_hash` returns
an index strictly below `c` (it is a `Nat`, so 0 ≤ it holds by type). -/
theorem hash_index_in_range (key : List Nat) (c : Nat) (h : 0 < c) :
    HT_hash key c < c :=
  Nat.mod_lt _ h

/-- C6 witness: the range bound at the concrete key `"abc"` and
capacity 10. -/
theorem hash_index_in_range_witness :
    0 < 10 ∧ HT_hash [97, 98, 99] 10 < 10 :=
  ⟨by decide, hash_index_in_range [97, 98, 99] 10 (by decide)⟩

/-- C7: for every well-formed table in which key `k` is present,
`HT_change t k v2` succeeds (the `_lookup` scan finds a node) and in the
resulting table `HT_find` — which scans the chain in the same first-match
order — returns `v2`; with `t := HT_add t0 k v1` this yields the claimed
add-then-change behaviour, as the witness instantiates. -/
theorem change_overwrites_first_match (t : HT_Ht) (k : List Nat) (v2 : Int)
    (hlen : t.nodes.length = t.capacity) (hcap : 0 < t.capacity)
    (hmem : HT_check t k = true) :
    ∃ t2, HT_change t k v2 = some t2 ∧ HT_find t2 k = some v2 := by
  have hi : HT_hash k t.capacity < t.nodes.length := by
    rw [hlen]; exact Nat.mod_lt _ hcap
  have hchk : _HT_check (t.nodes.getD (HT_hash k t.capacity) []) k = true := hmem
  have hsome : (lookupLoop (t.nodes.getD (HT_hash k t.capacity) []) k).isSome = true := by
    rw [← check_eq_lookupLoop_isSome]; exact hchk
  rcases Option.isSome_iff_exists.mp hsome with ⟨n, hn⟩
  have hlk : _lookup t k = some n := hn
  refine ⟨{ t with nodes := (t.nodes.set (HT_hash k t.capacity)
      (changeFirst (t.nodes.getD (HT_hash k t.capacity) []) k v2)) }, ?_, ?_⟩
  · unfold HT_change
    rw [hlk]
  · show _HT_find ((t.nodes.set (HT_hash k t.capacity)
      (changeFirst (t.nodes.getD (HT_hash k t.capacity) []) k v2)).getD
      (HT_hash k t.capacity) []) k = some v2
    rw [getD_set_self _ _ _ _ hi]
    exact find_changeFirst _ _ _ hchk

/-- C7 witness: add `("a", 1)` to `HT_create 2`, change it to 42, find 42. -/
theorem change_overwrites_first_match_witness :
    ((HT_add (HT_create 2) [97] 1).nodes.length
        = (HT_add (HT_create 2) [97] 1).capacity ∧
      0 < (HT_add (HT_create 2) [97] 1).capacity ∧
      HT_check (HT_add (HT_create 2) [97] 1) [97] = true) ∧
    (∃ t2, HT_change (HT_add (HT_create 2) [97] 1) [97] 42 = some t2 ∧
      HT_find t2 [97] = some 42) :=
  ⟨⟨rfl, by decide, rfl⟩,
    change_overwrites_first_match (HT_add (HT_create 2) [97] 1) [97] 42 rfl (by decide) rfl⟩

/-- C8: `HT_add` changes only the bucket selected by `HT_hash`: the
capacity is unchanged, that bucket becomes the new node (a copy of the
key with the value) consed onto the previous chain head, and every other
bucket index holds exactly its previous chain. -/
theorem add_frames_other_buckets (t : HT_Ht) (k : List Nat) (v : Int)
    (hlen : t.nodes.length = t.capacity) (hcap : 0 < t.capacity) :
    (HT_add t k v).capacity = t.capacity ∧
    (HT_add t k v).nodes.getD (HT_hash k t.capacity) []
      = { key := k, value := v } :: t.nodes.getD (HT_hash k t.capacity) [] ∧
    ∀ j, j < t.capacity → j ≠ HT_hash k t.capacity →
      (HT_add t k v).nodes.getD j [] = t.nodes.getD j [] := by
  have hi : HT_hash k t.capacity < t.nodes.length := by
    rw [hlen]; exact Nat.mod_lt _ hcap
  refine ⟨rfl, ?_, ?_⟩
  · show (t.nodes.set (HT_hash k t.capacity)
      ({ key := k, value := v } :: t.nodes.getD (HT_hash k t.capacity) [])).getD
      (HT_hash k t.capacity) [] = _
    exact getD_set_self _ _ _ _ hi
  · intro j hj hne
    show (t.nodes.set (HT_hash k t.capacity)
      ({ key := k, value := v } :: t.nodes.getD (HT_hash k t.capacity) [])).getD
      j [] = _
    exact getD_set_ne _ _ _ _ _ hne

/-- C8 witness: adding `("a", 5)` to `HT_create 2` (key `"a"` hashes to
bucket 1) frames bucket 0. -/
theorem add_frames_other_buckets_witness :
    ((HT_create 2).nodes.length = (HT_create 2).capacity ∧ 0 < (HT_create 2).capacity) ∧
    ((HT_add (HT_create 2) [97] 5).capacity = (HT_create 2).capacity ∧
      (HT_add (HT_create 2) [97] 5).nodes.getD (HT_hash [97] (HT_create 2).capacity) []
        = { key := [97], value := 5 } ::
            (HT_create 2).nodes.getD (HT_hash [97] (HT_create 2).capacity) [] ∧
      ∀ j, j < (HT_create 2).capacity → j ≠ HT_hash [97] (HT_create 2).capacity →
        (HT_add (HT_create 2) [97] 5).nodes.getD j [] = (HT_create 2).nodes.getD j []) :=
  ⟨⟨rfl, by decide⟩, add_frames_other_buckets (HT_create 2) [97] 5 rfl (by decide)⟩

/-- C9: the recursive scan `_HT_check` agrees with the iterative
`_lookup`: `HT_check` is true exactly when `_lookup` returns a node, and
whenever `_lookup` returns node `n`, `HT_find` returns exactly `n`'s
value — so check, find and change (which writes through the node
`_lookup` returns) all locate the same first-match entry. -/
theorem recursive_iterative_scans_agree (t : HT_Ht) (key : List Nat) :
    (HT_check t key = true ↔ (_lookup t key).isSome = true) ∧
    ∀ n, _lookup t key = some n → HT_find t key = some n.value := by
  constructor
  · show _HT_check (t.nodes.getD (HT_hash key t.capacity) []) key = true
      ↔ (lookupLoop (t.nodes.getD (HT_hash key t.capacity) []) key).isSome = true
    rw [check_eq_lookupLoop_isSome]
  · intro n hn
    exact lookupLoop_find _ _ _ hn

/-- C9 witness: on the table holding `("a", 7)`, the iff and the
implication instantiated at the node `_lookup` concretely returns. -/
theorem recursive_iterative_scans_agree_witness :
    HT_check (HT_add (HT_create 1) [97] 7) [97] = true ∧
    HT_find (HT_add (HT_create 1) [97] 7) [97] = some 7 :=
  ⟨(recursive_iterative_scans_agree (HT_add (HT_create 1) [97] 7) [97]).1.mpr rfl,
   (recursive_iterative_scans_agree (HT_add (HT_create 1) [97] 7) [97]).2
      { key := [97], value := 7 } rfl⟩

/-- C10: when some entry with the given key is present in the chain, the
recursive removal helper never reaches a NULL dereference (`none` in the
model): it returns a chain, and hence `HT_remove` on any table whose
selected bucket holds that chain also returns a table. -/
theorem remove_never_null_derefs (chain : List HT_Node) (key : List Nat)
    (h : ∃ n ∈ chain, n.key = key) :
    (_HT_remove_node chain key).isSome = true ∧
    ∀ t : HT_Ht, t.nodes.getD (HT_hash key t.capacity) [] = chain →
      (HT_remove t key).isSome = true := by
  have h1 := remove_node_isSome chain key h
  refine ⟨h1, ?_⟩
  intro t ht
  show (Option.map
      (fun bucket =>
        ({ t with nodes := t.nodes.set (HT_hash key t.capacity) bucket } : HT_Ht))
      (_HT_remove_node (t.nodes.getD (HT_hash key t.capacity) []) key)).isSome = true
  rw [ht]
  rcases Option.isSome_iff_exists.mp h1 with ⟨b, hb⟩
  simp [hb]

/-- C10 witness: the chain `[("a", 1)]` contains `"a"`, and removal
succeeds both on the chain and on the concrete table holding it. -/
theorem remove_never_null_derefs_witness :
    (∃ n ∈ [({ key := [97], value := 1 } : HT_Node)], n.key = [97]) ∧
    ((_HT_remove_node [({ key := [97], value := 1 } : HT_Node)] [97]).isSome = true ∧
      (HT_remove (HT_add (HT_create 1) [97] 1) [97]).isSome = true) :=
  ⟨⟨{ key := [97], value := 1 }, by simp, rfl⟩,
   (remove_never_null_derefs [{ key := [97], value := 1 }] [97]
      ⟨{ key := [97], value := 1 }, by simp, rfl⟩).1,
   (remove_never_null_derefs [{ key := [97], value := 1 }] [97]
      ⟨{ key := [97], value := 1 }, by simp, rfl⟩).2
     (HT_add (HT_create 1) [97] 1) rfl⟩
